import Mathlib

/-!
Shallow embedding of the PR classification and policy engine of
promiseofcake/dependabot-bouncer (Go), together with proofs about it.

The embedding models Go strings as Lean `String`s (sequences of runes);
byte indices coincide with rune indices on the ASCII package names and
deny-list entries this tool manipulates.  Functions keep the names of the
Go functions they translate (`extractPackageInfo`, `isDenied`,
`ciStatus`, `removeDuplicates`, ...).
-/

namespace Bouncer

/-! ### Go `strings` primitives -/

/-- Go `strings.ToLower`, rune-wise lower-casing (ASCII range; the inputs at
issue are ASCII plus emoji, which lower-casing leaves untouched). -/
def toLowerGo (s : String) : String :=
  ⟨s.data.map Char.toLower⟩

/-- Go `strings.HasPrefix`. -/
def startsWithGo (s pre : String) : Bool :=
  pre.data.isPrefixOf s.data

/-- Go `strings.HasSuffix`. -/
def endsWithGo (s suf : String) : Bool :=
  suf.data.isSuffixOf s.data

/-- Helper for `containsGo`: does `sub` occur as a contiguous run in the list? -/
def containsChars (sub : List Char) : List Char → Bool
  | [] => sub.isEmpty
  | c :: t => sub.isPrefixOf (c :: t) || containsChars sub t

/-- Go `strings.Contains`. -/
def containsGo (s sub : String) : Bool :=
  containsChars sub.data s.data

/-- Go `strings.EqualFold` (simple case folding; agrees with lower-casing on
the ASCII inputs at issue). -/
def equalFold (a b : String) : Bool :=
  toLowerGo a == toLowerGo b

/-- Helper for `indexGo`: index of the first occurrence of `sub` at or after
position `i`. -/
def indexAux (sub : List Char) : List Char → Nat → Option Nat
  | [], i => if sub.isEmpty then some i else none
  | c :: t, i => if sub.isPrefixOf (c :: t) then some i else indexAux sub t (i + 1)

/-- Go `strings.Index`: position of the first occurrence, `-1` if absent. -/
def indexGo (s sub : String) : Int :=
  match indexAux sub.data s.data 0 with
  | some i => (i : Int)
  | none => -1

/-- Go slice `s[:n]` (rune-counted in this model). -/
def takeGo (s : String) (n : Nat) : String :=
  ⟨s.data.take n⟩

/-- Helper for `splitOnSlash`, on the rune list. -/
def splitOnSlashChars : List Char → List (List Char)
  | [] => [[]]
  | c :: t =>
    if c = '/' then [] :: splitOnSlashChars t
    else
      match splitOnSlashChars t with
      | h :: r => (c :: h) :: r
      | [] => [[c]]

/-- Go `strings.Split(s, "/")`. -/
def splitOnSlash (s : String) : List String :=
  (splitOnSlashChars s.data).map (⟨·⟩)

/-- Go `strings.TrimPrefix`. -/
def trimPreGo (s pre : String) : String :=
  if startsWithGo s pre then ⟨s.data.drop pre.length⟩ else s

/-- Helper for `fieldsGo`: accumulates the current word (reversed). -/
def fieldsAux : List Char → List Char → List String
  | [], acc => if acc.isEmpty then [] else [⟨acc.reverse⟩]
  | c :: t, acc =>
    if c.isWhitespace then
      if acc.isEmpty then fieldsAux t [] else ⟨acc.reverse⟩ :: fieldsAux t []
    else fieldsAux t (c :: acc)

/-- Go `strings.Fields`: whitespace-separated tokens. -/
def fieldsGo (s : String) : List String :=
  fieldsAux s.data []

/-- Go `strings.TrimSpace`: trims whitespace from both ends. -/
def trimSpaceGo (s : String) : String :=
  ⟨((s.data.dropWhile Char.isWhitespace).reverse.dropWhile Char.isWhitespace).reverse⟩

/-! ### The title patterns of `extractPackageInfo`

`extractPackageInfo` (internal/scm/github.go) tries five Go regular
expressions in order.  Each of them is a sequence of the following atoms,
so the patterns are embedded as atom lists interpreted by a backtracking
matcher with Go's (leftmost, greedy, Perl-style) semantics:

* a case-insensitive literal (covering `(?i)` literals and `[Bb]ump`),
* `\s+`,
* the single capturing group `([^\s]+)`,
* the alternation `(?:from|to)` of case-insensitive literals,
* `.*` (any run of non-newline characters, greedy).
-/

inductive RAtom where
  | lit : String → RAtom
  | ws : RAtom
  | cap : RAtom
  | alt : List String → RAtom
  | dotStar : RAtom

/-- Case-insensitive character comparison. -/
def ciEq (a b : Char) : Bool :=
  a.toLower == b.toLower

/-- Is `pat` a case-insensitive prefix of `s`? -/
def ciIsHead : List Char → List Char → Bool
  | [], _ => true
  | _ :: _, [] => false
  | a :: as, b :: bs => ciEq a b && ciIsHead as bs

/-- Length of the longest prefix satisfying `p`. -/
def countWhile (p : Char → Bool) : List Char → Nat
  | [] => 0
  | c :: t => if p c then countWhile p t + 1 else 0

/-- First `some` produced by `f` along the list. -/
def firstSome (l : List α) (f : α → Option β) : Option β :=
  match l with
  | [] => none
  | a :: t =>
    match f a with
    | some b => some b
    | none => firstSome t f

/-- Candidate lengths `hi, hi-1, ..., lo` (greedy order). -/
def greedyLens (lo hi : Nat) : List Nat :=
  (List.range (hi + 1 - lo)).map (fun i => hi - i)

/-- The ways one atom can consume a prefix of `s`, in Go's preference order;
each candidate is the remaining input plus the capture when the atom is the
capturing group. -/
def consume : RAtom → List Char → List (List Char × Option (List Char))
  | .lit l, s => if ciIsHead l.data s then [(s.drop l.data.length, none)] else []
  | .ws, s =>
    (greedyLens 1 (countWhile Char.isWhitespace s)).map (fun k => (s.drop k, none))
  | .cap, s =>
    (greedyLens 1 (countWhile (fun c => !c.isWhitespace) s)).map
      (fun k => (s.drop k, some (s.take k)))
  | .alt ls, s =>
    ls.filterMap (fun l => if ciIsHead l.data s then some (s.drop l.data.length, none) else none)
  | .dotStar, s =>
    (greedyLens 0 (countWhile (fun c => c != '\n') s)).map (fun k => (s.drop k, none))

/-- Backtracking matcher: does the atom list match a prefix of `s`, and with
which captures?  Candidates are tried in Go's preference order, so the first
success carries the same captures Go's `regexp` would report. -/
def matchAtoms : List RAtom → List Char → Option (List (List Char))
  | [], _ => some []
  | a :: rest, s =>
    firstSome (consume a s) (fun pr =>
      (matchAtoms rest pr.1).map (fun caps =>
        match pr.2 with
        | some c => c :: caps
        | none => caps))

/-- Go `regexp.FindStringSubmatch` restricted to these patterns: the first
capture of the leftmost match (at the start only, when the pattern is
anchored by `^`). -/
def findSubmatch (anchored : Bool) (atoms : List RAtom) (s : String) : Option String :=
  let capOf : List (List Char) → String := fun caps =>
    match caps with
    | c :: _ => ⟨c⟩
    | [] => ""
  if anchored then (matchAtoms atoms s.data).map capOf
  else (firstSome s.data.tails (fun t => matchAtoms atoms t)).map capOf

/-- The five patterns of `extractPackageInfo`, with their anchoring, in order:
1. `(?i)⬆️\s+\(deps\):\s+[Bb]ump\s+([^\s]+)\s+(?:from|to)`
2. `(?i)⬆️\s+\(deps\):\s+[Bb]ump\s+the\s+([^\s]+)\s+group`
3. `(?i)^[Bb]ump\s+([^\s]+)\s+(?:from|to)`
4. `(?i)^[Uu]pdate\s+([^\s]+)\s+(?:from|to)`
5. `(?i)^chore.*[Bb]ump\s+([^\s]+)\s+(?:from|to)` -/
def titlePatterns : List (Bool × List RAtom) :=
  [ (false, [.lit "⬆️", .ws, .lit "(deps):", .ws, .lit "bump", .ws, .cap, .ws,
      .alt ["from", "to"]]),
    (false, [.lit "⬆️", .ws, .lit "(deps):", .ws, .lit "bump", .ws, .lit "the", .ws,
      .cap, .ws, .lit "group"]),
    (true, [.lit "bump", .ws, .cap, .ws, .alt ["from", "to"]]),
    (true, [.lit "update", .ws, .cap, .ws, .alt ["from", "to"]]),
    (true, [.lit "chore", .dotStar, .lit "bump", .ws, .cap, .ws, .alt ["from", "to"]]) ]

/-- The pattern loop of `extractPackageInfo`: first pattern that matches wins. -/
def matchTitlePatterns (title : String) : String :=
  match firstSome titlePatterns (fun p => findSubmatch p.1 p.2 title) with
  | some pkg => pkg
  | none => ""

/-- The fallback of `extractPackageInfo`: split the title into fields, skip
the first, and take the first token containing `/` or `@`. -/
def fallbackName (title : String) : String :=
  match fieldsGo title with
  | [] => ""
  | _ :: rest =>
    match rest.find? (fun part => containsGo part "/" || containsGo part "@") with
    | some part => part
    | none => ""

/-- Package-name extraction phase of `extractPackageInfo`. -/
def extractName (title : String) : String :=
  let p := matchTitlePatterns title
  if p == "" then fallbackName title else p

/-- The fallback loop of the organization extraction: first path segment
after the first that contains no `.` and does not start with `v`. -/
def fallbackScan (parts : List String) : String :=
  match parts with
  | [] => ""
  | _ :: rest =>
    match rest.find? (fun part => !containsGo part "." && !startsWithGo part "v") with
    | some part => part
    | none => ""

/-- Organization extraction phase of `extractPackageInfo` (the block guarded
by `if packageName != ""`). -/
def extractOrg (packageName : String) : String :=
  if packageName != "" then
    if startsWithGo packageName "@" && containsGo packageName "/" then
      trimPreGo ((splitOnSlash packageName).headD "") "@"
    else if containsGo packageName "/" then
      if startsWithGo packageName "golang.org/x/"
          || startsWithGo packageName "google.golang.org/" then ""
      else if startsWithGo packageName "gopkg.in/" then
        let parts := splitOnSlash packageName
        if parts.length > 2 then toLowerGo (parts.getD 1 "") else ""
      else
        let parts := splitOnSlash packageName
        if parts.length ≥ 3 && startsWithGo packageName "github.com/" then parts.getD 1 ""
        else fallbackScan parts
    else ""
  else ""

/-- `extractPackageInfo` (internal/scm/github.go): package name and
organization from a Dependabot PR title. -/
def extractPackageInfo (title : String) : String × String :=
  let packageName := extractName title
  (packageName, extractOrg packageName)

/-! ### Policy Evaluator: `isDenied` -/

/-- One iteration of the `deniedPackages` loop of `isDenied`
(internal/scm/github.go): `true` means `return true`, `false` covers both
the wildcard-branch `continue` and falling through to the next entry. -/
def packageEntryDenies (packageName denied : String) : Bool :=
  if containsGo denied "*" then
    let pattern := toLowerGo denied
    let pkg := toLowerGo packageName
    if pattern == "*alpha*" && containsGo pkg "alpha" then true
    else if pattern == "*beta*" && containsGo pkg "beta" then true
    else if pattern == "*rc*" && containsGo pkg "rc" then true
    else if pattern == "*/v0" && endsWithGo pkg "/v0" then true
    else false
  else if equalFold packageName denied then true
  else if containsGo denied "@" then
    containsGo (toLowerGo packageName) (toLowerGo denied)
  else
    let deniedLower := toLowerGo denied
    let pkgLower := toLowerGo packageName
    if pkgLower == deniedLower then true
    else
      let idx := indexGo pkgLower "@"
      if 0 < idx then takeGo pkgLower idx.toNat == deniedLower else false

/-- `isDenied` (internal/scm/github.go): is the package or its organization
in the deny lists?  The two Go loops with early `return true` are the two
`List.any` passes. -/
def isDenied (packageName orgName : String)
    (deniedPackages deniedOrgs : List String) : Bool :=
  deniedPackages.any (packageEntryDenies packageName)
    || deniedOrgs.any (fun denied => equalFold orgName denied)

/-! ### Config helpers -/

/-- Helper for `removeDuplicates`: `seen` is the set of already-kept
normalized entries. -/
def removeDuplicatesAux (seen : List String) : List String → List String
  | [] => []
  | item :: rest =>
    let normalized := toLowerGo (trimSpaceGo item)
    if normalized != "" && !seen.contains normalized then
      item :: removeDuplicatesAux (normalized :: seen) rest
    else removeDuplicatesAux seen rest

/-- `removeDuplicates` (cmd/dependabot-bouncer/commands.go): drops entries
that are empty after trimming, and case-insensitive duplicates. -/
def removeDuplicates (slice : List String) : List String :=
  removeDuplicatesAux [] slice

/-! ### PR Classifier data model -/

/-- `DependencyUpdateQuery` (internal/scm/deps.go). -/
structure DependencyUpdateQuery where
  Owner : String
  Repo : String
  IgnoredPRs : List Int
  DeniedPackages : List String
  DeniedOrgs : List String

/-- `DependencyUpdateRequest` (internal/scm/deps.go). -/
structure DependencyUpdateRequest where
  Owner : String
  Repo : String
  PullRequestNumber : Int
  NodeID : String
  Title : String
  PackageName : String
deriving DecidableEq, Repr

/-- The data of one pull request as consumed by `GetDependencyUpdates`:
number, node id, title and author id from the list call, plus the outcome
of the per-PR `GetCombinedStatus` collaborator call (`Except.error` models
a failed status fetch). -/
structure PullRecord where
  number : Int
  nodeID : String
  title : String
  userID : Int
  combinedStatus : Except String String

/-- The Dependabot bot account id (internal/scm/github.go). -/
def dependabotUserID : Int := 49699333

/-- The per-record loop of `GetDependencyUpdates` (internal/scm/github.go):
ignored PRs are skipped first, then non-Dependabot authors, then denied
packages; with `skipFailing` the combined status is fetched (propagating
its error) and only `"success"` records are kept. -/
def getDependencyUpdates (q : DependencyUpdateQuery) (skipFailing : Bool) :
    List PullRecord → Except String (List DependencyUpdateRequest)
  | [] => .ok []
  | p :: rest =>
    if q.IgnoredPRs.contains p.number then getDependencyUpdates q skipFailing rest
    else if skipFailing then
      if p.userID == dependabotUserID then
        let pkg := extractPackageInfo p.title
        if isDenied pkg.1 pkg.2 q.DeniedPackages q.DeniedOrgs then
          getDependencyUpdates q skipFailing rest
        else
          match p.combinedStatus with
          | .error e => .error e
          | .ok st =>
            if st == "success" then
              (getDependencyUpdates q skipFailing rest).map
                (⟨q.Owner, q.Repo, p.number, p.nodeID, p.title, pkg.1⟩ :: ·)
            else getDependencyUpdates q skipFailing rest
      else getDependencyUpdates q skipFailing rest
    else
      if p.userID == dependabotUserID then
        let pkg := extractPackageInfo p.title
        if isDenied pkg.1 pkg.2 q.DeniedPackages q.DeniedOrgs then
          getDependencyUpdates q skipFailing rest
        else
          (getDependencyUpdates q skipFailing rest).map
            (⟨q.Owner, q.Repo, p.number, p.nodeID, p.title, pkg.1⟩ :: ·)
      else getDependencyUpdates q skipFailing rest

/-! ### CI state derivation: `ciStatus` -/

/-- One entry of the `statusCheckRollup` array (internal/scm/github.go,
gh-CLI rewrite). -/
structure CheckEntry where
  status : String
  conclusion : String
deriving DecidableEq, Repr

/-- Is the conclusion in the `switch` list SUCCESS/SKIPPED/NEUTRAL that the
loop of `ciStatus` treats as passing (`continue`)? -/
def goodConclusion (c : CheckEntry) : Bool :=
  c.conclusion == "SUCCESS" || c.conclusion == "SKIPPED" || c.conclusion == "NEUTRAL"

/-- The scan loop of `ciStatus`: `"pending"` at the first entry whose status
is not `COMPLETED`, `"failure"` at the first completed entry whose
conclusion is not SUCCESS/SKIPPED/NEUTRAL, `"success"` past the end. -/
def ciScan : List CheckEntry → String
  | [] => "success"
  | c :: rest =>
    if c.status != "COMPLETED" then "pending"
    else if goodConclusion c then ciScan rest
    else "failure"

/-- `ciStatus` (internal/scm/github.go, gh-CLI rewrite): overall CI status
from the `statusCheckRollup` array. -/
def ciStatus (checks : List CheckEntry) : String :=
  if checks.isEmpty then "pending" else ciScan checks

/-- Does the entry have a conclusion other than SUCCESS/SKIPPED/NEUTRAL? -/
def badConclusion (c : CheckEntry) : Bool :=
  !goodConclusion c

/-- Definition following the words of the claim about `ciStatus`, for
comparison: pending when empty or ANY entry is not completed, else failure
when any (completed) entry has a bad conclusion, else success. -/
def ciStatusClaimed (checks : List CheckEntry) : String :=
  if checks.isEmpty || checks.any (fun c => c.status != "COMPLETED") then "pending"
  else if checks.any badConclusion then "failure"
  else "success"

/-- Does the scan loop of `ciStatus` stop at this entry (not completed, or a
conclusion outside SUCCESS/SKIPPED/NEUTRAL)? -/
def ciCheckStops (c : CheckEntry) : Bool :=
  c.status != "COMPLETED" || badConclusion c

/-- Definition following the words of the claim about `ciStatus` as amended:
pending for an empty list, otherwise the FIRST entry the scan stops at
decides the result (pending when it is not completed, failure when its
conclusion is bad), and success when the scan stops nowhere. -/
def ciStatusSeq (checks : List CheckEntry) : String :=
  match checks, checks.find? ciCheckStops with
  | [], _ => "pending"
  | _ :: _, none => "success"
  | _ :: _, some c => if c.status != "COMPLETED" then "pending" else "failure"

/-! ### Action Dispatcher -/

/-- Outcome of a batch action loop: either the loop completed (the Go
function returned `nil`), or `panic(err)` aborted it; in both cases the
numbers of the PRs acted on before the end are recorded in order. -/
inductive BatchOutcome where
  | completed : List Int → BatchOutcome
  | panicked : List Int → BatchOutcome
deriving DecidableEq, Repr

/-- `ApprovePullRequests` (internal/scm/github.go): per request, a
`CreateReview(..., APPROVE)` collaborator call, abstracted as
`api r.PullRequestNumber`; on error the Go code calls `panic(err)`. -/
def approvePullRequests (api : Int → Except String Unit) :
    List DependencyUpdateRequest → BatchOutcome
  | [] => .completed []
  | r :: rest =>
    match api r.PullRequestNumber with
    | .error _ => .panicked []
    | .ok _ =>
      match approvePullRequests api rest with
      | .completed l => .completed (r.PullRequestNumber :: l)
      | .panicked l => .panicked (r.PullRequestNumber :: l)

/-- `RecreatePullRequests` (internal/scm/github.go): per request, a
`CreateReview(..., COMMENT "@dependabot recreate")` call; on error the Go
code calls `panic(err)`. -/
def recreatePullRequests (api : Int → Except String Unit) :
    List DependencyUpdateRequest → BatchOutcome
  | [] => .completed []
  | r :: rest =>
    match api r.PullRequestNumber with
    | .error _ => .panicked []
    | .ok _ =>
      match recreatePullRequests api rest with
      | .completed l => .completed (r.PullRequestNumber :: l)
      | .panicked l => .panicked (r.PullRequestNumber :: l)

/-- `RebasePullRequests` (internal/scm/github.go): per request, a
`CreateReview(..., COMMENT "@dependabot rebase")` call; on error the Go
code calls `panic(err)`. -/
def rebasePullRequests (api : Int → Except String Unit) :
    List DependencyUpdateRequest → BatchOutcome
  | [] => .completed []
  | r :: rest =>
    match api r.PullRequestNumber with
    | .error _ => .panicked []
    | .ok _ =>
      match rebasePullRequests api rest with
      | .completed l => .completed (r.PullRequestNumber :: l)
      | .panicked l => .panicked (r.PullRequestNumber :: l)

/-- `PRInfo` (internal/scm/deps.go, gh-CLI rewrite). -/
structure PRInfo where
  Number : Int
  Title : String
  URL : String
  MergeStateStatus : String
  CIStatus : String
  PackageName : String
  Skipped : Bool
  SkipReason : String

/-- The collaborator actions the approve mode can issue for one PR. -/
inductive ApproveAction where
  | recreate
  | rebase
  | approve
  | autoMerge
deriving DecidableEq, Repr

/-- Modelled from the spec: the final approve-mode dispatcher (`runApprove`
of `cmd/dependabot-bouncer/commands.go` in the gh-CLI version whose
behavior the README documents) is not among the sources; per spec section
4.4, for each classified PR: if the merge state is DIRTY, request
recreation (conflicts cannot be approved); else if BEHIND, request a
rebase; then approve; then request auto-merge (squash). -/
def approveModeActions (pr : PRInfo) : List ApproveAction :=
  if pr.MergeStateStatus == "DIRTY" then [.recreate]
  else if pr.MergeStateStatus == "BEHIND" then [.rebase, .approve, .autoMerge]
  else [.approve, .autoMerge]

/-- Modelled from the spec: the approve mode over the whole working set,
one PR at a time in list order. -/
def runApprove (prs : List PRInfo) : List (Int × ApproveAction) :=
  prs.flatMap (fun pr => (approveModeActions pr).map (fun a => (pr.Number, a)))

/-! ### Claim-side comparison definitions -/

/-- Does the segment start with `v` followed by a digit? (The claim about
the organization fallback reads: skip segments starting with `v` followed
by digits.) -/
def startsWithVDigit (part : String) : Bool :=
  match part.data with
  | 'v' :: c :: _ => c.isDigit
  | _ => false

/-- Definition following the words of the claim about the organization
fallback, for comparison: the first segment after the first that contains
no `.` and does not start with `v` followed by digits. -/
def fallbackOrgClaimed (pkg : String) : String :=
  match (splitOnSlash pkg).tail.find?
      (fun part => !containsGo part "." && !startsWithVDigit part) with
  | some part => part
  | none => ""

/-! ## Helper lemmas -/

theorem mkStr_eq_empty {l : List Char} : (⟨l⟩ : String) = "" ↔ l = [] := by
  rw [show ("" : String) = ⟨[]⟩ from rfl, String.ext_iff]

theorem strData_eq_nil {s : String} : s.data = [] ↔ s = "" := by
  rw [String.ext_iff]

theorem toLowerGo_eq_empty {s : String} : toLowerGo s = "" ↔ s = "" := by
  unfold toLowerGo
  rw [mkStr_eq_empty, List.map_eq_nil_iff, strData_eq_nil]

theorem isDenied_singleton (s d : String) :
    isDenied s "" [d] [] = packageEntryDenies s d := by
  simp [isDenied]

/-! ## C1: wildcard deny entries -/

/-- C1: the claim states that a deny entry of the form `*x*` matches exactly
the package names whose lower-casing contains `x`, for every `x`.  This is
false: `isDenied` recognizes only the four hard-coded wildcard entries, so
`*foo*` does not match `"xfoox"` although `"foo"` is contained in it. -/
theorem C1_counterexample :
    containsGo (toLowerGo "xfoox") "foo" = true
      ∧ isDenied "xfoox" "" ["*foo*"] [] = false := by
  constructor
  · decide
  · decide

/-- C1 (amended): wildcard handling is hard-coded to four patterns.  An
entry whose lower-casing is `*alpha*`, `*beta*` or `*rc*` matches exactly
when the lower-cased package name contains `alpha`, `beta` or `rc`; one
whose lower-casing is `*/v0` matches exactly when the lower-cased package
name ends with `/v0`; every other entry containing `*` matches nothing. -/
theorem C1_wildcard_fixed_patterns (s : String) :
    isDenied s "" ["*alpha*"] [] = containsGo (toLowerGo s) "alpha"
    ∧ isDenied s "" ["*beta*"] [] = containsGo (toLowerGo s) "beta"
    ∧ isDenied s "" ["*rc*"] [] = containsGo (toLowerGo s) "rc"
    ∧ isDenied s "" ["*/v0"] [] = endsWithGo (toLowerGo s) "/v0"
    ∧ ∀ d, containsGo d "*" = true →
        toLowerGo d ∉ (["*alpha*", "*beta*", "*rc*", "*/v0"] : List String) →
        isDenied s "" [d] [] = false := by
  refine ⟨?_, ?_, ?_, ?_, ?_⟩
  · rw [isDenied_singleton]
    unfold packageEntryDenies
    have c1 : containsGo "*alpha*" "*" = true := by decide
    have p : toLowerGo "*alpha*" = "*alpha*" := by decide
    simp only [c1, p, if_true]
    cases h : containsGo (toLowerGo s) "alpha" <;> simp [h]
  · rw [isDenied_singleton]
    unfold packageEntryDenies
    have c1 : containsGo "*beta*" "*" = true := by decide
    have p : toLowerGo "*beta*" = "*beta*" := by decide
    simp only [c1, p, if_true]
    cases h : containsGo (toLowerGo s) "beta" <;> simp [h]
  · rw [isDenied_singleton]
    unfold packageEntryDenies
    have c1 : containsGo "*rc*" "*" = true := by decide
    have p : toLowerGo "*rc*" = "*rc*" := by decide
    simp only [c1, p, if_true]
    cases h : containsGo (toLowerGo s) "rc" <;> simp [h]
  · rw [isDenied_singleton]
    unfold packageEntryDenies
    have c1 : containsGo "*/v0" "*" = true := by decide
    have p : toLowerGo "*/v0" = "*/v0" := by decide
    simp only [c1, p, if_true]
    cases h : endsWithGo (toLowerGo s) "/v0" <;> simp [h]
  · intro d hstar hnot
    rw [isDenied_singleton]
    unfold packageEntryDenies
    simp only [List.mem_cons, List.not_mem_nil, or_false, not_or] at hnot
    obtain ⟨h1, h2, h3, h4⟩ := hnot
    have b1 : (toLowerGo d == "*alpha*") = false := beq_eq_false_iff_ne.mpr h1
    have b2 : (toLowerGo d == "*beta*") = false := beq_eq_false_iff_ne.mpr h2
    have b3 : (toLowerGo d == "*rc*") = false := beq_eq_false_iff_ne.mpr h3
    have b4 : (toLowerGo d == "*/v0") = false := beq_eq_false_iff_ne.mpr h4
    simp [hstar, b1, b2, b3, b4]

theorem C1_witness : isDenied "xbetax" "" ["*beta*"] [] = true := by
  rw [(C1_wildcard_fixed_patterns "xbetax").2.1]
  decide

/-! ## C2: per-PR action failure handling -/

/-- C2: the claim states that a failed approve/recreate/rebase action on one
PR is logged and the batch continues with the next PR, never aborting.  The
code instead calls `panic(err)` on the first failed `CreateReview` call:
with a two-request batch whose first call fails and whose second would
succeed, all three loops abort with nothing processed, so PR 2 is never
acted on. -/
theorem C2_action_failure_panics :
    approvePullRequests (fun n => if n == 1 then .error "403" else .ok ())
        [⟨"o", "r", 1, "", "t1", "p1"⟩, ⟨"o", "r", 2, "", "t2", "p2"⟩]
      = .panicked []
    ∧ recreatePullRequests (fun n => if n == 1 then .error "403" else .ok ())
        [⟨"o", "r", 1, "", "t1", "p1"⟩, ⟨"o", "r", 2, "", "t2", "p2"⟩]
      = .panicked []
    ∧ rebasePullRequests (fun n => if n == 1 then .error "403" else .ok ())
        [⟨"o", "r", 1, "", "t1", "p1"⟩, ⟨"o", "r", 2, "", "t2", "p2"⟩]
      = .panicked []
    ∧ approvePullRequests (fun _ => .ok ())
        [⟨"o", "r", 1, "", "t1", "p1"⟩, ⟨"o", "r", 2, "", "t2", "p2"⟩]
      = .completed [1, 2] :=
  ⟨rfl, rfl, rfl, rfl⟩

/-! ## C5: derivation of the CI state -/

/-- C5: the claim prioritizes the pending clause over the failure clause;
the code scans sequentially, so a completed failing entry followed by a
still-running entry yields failure although an entry is not yet
completed. -/
theorem C5_counterexample :
    ciStatus [⟨"COMPLETED", "FAILURE"⟩, ⟨"IN_PROGRESS", ""⟩] = "failure"
    ∧ ciStatusClaimed [⟨"COMPLETED", "FAILURE"⟩, ⟨"IN_PROGRESS", ""⟩] = "pending"
    ∧ ciStatus [⟨"COMPLETED", "FAILURE"⟩, ⟨"IN_PROGRESS", ""⟩]
        ≠ ciStatusClaimed [⟨"COMPLETED", "FAILURE"⟩, ⟨"IN_PROGRESS", ""⟩] := by
  refine ⟨?_, ?_, ?_⟩ <;> decide

/-- Equation for the scan loop of `ciStatus`: its value is decided by the
first entry that is not completed or has a bad conclusion. -/
theorem ciScan_find (checks : List CheckEntry) :
    ciScan checks =
      match checks.find? ciCheckStops with
      | none => "success"
      | some c => if c.status != "COMPLETED" then "pending" else "failure" := by
  induction checks with
  | nil => rfl
  | cons c rest ih =>
    rw [List.find?_cons]
    cases hs : (c.status != "COMPLETED") with
    | true => simp [ciScan, ciCheckStops, hs]
    | false =>
      cases hg : goodConclusion c with
      | true => simp [ciScan, ciCheckStops, badConclusion, hs, hg, ih]
      | false => simp [ciScan, ciCheckStops, badConclusion, hs, hg]

/-- C5 (amended): `ciStatus` is "pending" on an empty list; otherwise the
first entry at which the scan stops decides the result — "pending" when
that entry is not yet completed, "failure" when it is completed with a
conclusion other than success/skipped/neutral — and it is "success" when
all entries are completed with passing conclusions. -/
theorem C5_ciStatus_sequential (checks : List CheckEntry) :
    ciStatus checks = ciStatusSeq checks := by
  cases checks with
  | nil => rfl
  | cons c rest =>
    have h1 : ciStatus (c :: rest) = ciScan (c :: rest) := by simp [ciStatus]
    have h2 : ciStatusSeq (c :: rest) =
        match (c :: rest).find? ciCheckStops with
        | none => "success"
        | some d => if d.status != "COMPLETED" then "pending" else "failure" := by
      unfold ciStatusSeq
      cases hf : (c :: rest).find? ciCheckStops <;> simp [hf]
    rw [h1, h2, ciScan_find]

/-! ## C7: the literal title-parser scenarios -/

/-- C7: the four literal scenarios of the spec evaluate on
`extractPackageInfo` exactly as stated. -/
theorem C7_literal_scenarios :
    extractPackageInfo "Bump github.com/datadog/datadog-go from 1.0.0 to 2.0.0"
      = ("github.com/datadog/datadog-go", "datadog")
    ∧ extractPackageInfo "Bump @datadog/browser-rum from 4.0.0 to 5.0.0"
      = ("@datadog/browser-rum", "datadog")
    ∧ extractPackageInfo "Update golang.org/x/net from v0.1.0 to v0.2.0"
      = ("golang.org/x/net", "")
    ∧ extractPackageInfo "⬆️ (deps): Bump the aws-sdk-go-v2 group with 4 updates"
      = ("aws-sdk-go-v2", "") := by
  refine ⟨?_, ?_, ?_, ?_⟩ <;> decide

/-! ## C3: approve-mode branch coverage (spec-modelled dispatcher) -/

/-- C3: in approve mode, a DIRTY PR gets a recreate action and no approve
action; a BEHIND PR gets a rebase request in addition to the approval; and
whenever an approval is issued, an auto-merge request is issued too; lifted
to the whole working set for the DIRTY case. -/
theorem C3_approve_mode_branches (pr : PRInfo) :
    (pr.MergeStateStatus = "DIRTY" →
      ApproveAction.recreate ∈ approveModeActions pr
        ∧ ApproveAction.approve ∉ approveModeActions pr)
    ∧ (pr.MergeStateStatus = "BEHIND" →
      ApproveAction.rebase ∈ approveModeActions pr
        ∧ ApproveAction.approve ∈ approveModeActions pr)
    ∧ (ApproveAction.approve ∈ approveModeActions pr →
      ApproveAction.autoMerge ∈ approveModeActions pr)
    ∧ ∀ prs, pr ∈ prs → pr.MergeStateStatus = "DIRTY" →
        (pr.Number, ApproveAction.recreate) ∈ runApprove prs := by
  refine ⟨?_, ?_, ?_, ?_⟩
  · intro h
    simp [approveModeActions, h]
  · intro h
    simp [approveModeActions, h]
  · intro h
    unfold approveModeActions at h ⊢
    by_cases h1 : (pr.MergeStateStatus == "DIRTY") = true
    · simp [h1] at h
    · by_cases h2 : (pr.MergeStateStatus == "BEHIND") = true
      · simp [h1, h2]
      · simp [h1, h2]
  · intro prs hmem h
    unfold runApprove
    rw [List.mem_flatMap]
    exact ⟨pr, hmem, by simp [approveModeActions, h]⟩

theorem C3_witness :
    ApproveAction.recreate ∈ approveModeActions ⟨7, "t", "u", "DIRTY", "success", "p", false, ""⟩
    ∧ ApproveAction.approve ∉ approveModeActions ⟨7, "t", "u", "DIRTY", "success", "p", false, ""⟩ :=
  (C3_approve_mode_branches _).1 rfl

/-! ## C4: unqualified and version-qualified deny entries -/

/-- C4: a deny entry without `@` and without `*` matches a package name
exactly when the two are equal case-insensitively or the package name
truncated at its first `@` (at a positive position) equals the entry
case-insensitively; in particular `aws-sdk-go` does not deny
`aws-sdk-go-v2`, while the version-qualified entry `pkg@v1` denies
`pkg@v1.2.3` by lower-cased containment. -/
theorem C4_unqualified_entries :
    (∀ pkg d, containsGo d "@" = false → containsGo d "*" = false →
      (isDenied pkg "" [d] [] = true ↔
        (equalFold pkg d = true
          ∨ (0 < indexGo (toLowerGo pkg) "@"
              ∧ takeGo (toLowerGo pkg) (indexGo (toLowerGo pkg) "@").toNat = toLowerGo d))))
    ∧ isDenied "aws-sdk-go-v2" "" ["aws-sdk-go"] [] = false
    ∧ isDenied "pkg@v1.2.3" "" ["pkg@v1"] [] = true := by
  refine ⟨?_, by decide, by decide⟩
  intro pkg d h1 h2
  rw [isDenied_singleton]
  unfold packageEntryDenies
  by_cases he : equalFold pkg d = true
  · simp [h1, h2, he]
  · have he' : equalFold pkg d = false := by
      cases h : equalFold pkg d
      · rfl
      · exact absurd h he
    have he2 : (toLowerGo pkg == toLowerGo d) = false := he'
    by_cases hidx : 0 < indexGo (toLowerGo pkg) "@"
    · simp [h1, h2, he', he2, hidx, beq_iff_eq]
    · simp [h1, h2, he', he2, hidx]

theorem C4_witness : isDenied "GitHub.com/PKG/Errors" "" ["github.com/pkg/errors"] [] = true :=
  (C4_unqualified_entries.1 "GitHub.com/PKG/Errors" "github.com/pkg/errors"
    (by decide) (by decide)).mpr (Or.inl (by decide))

/-! ## C6: the organization fallback scan -/

/-- C6: on the fallback input `example.org/vendor/foo` — which is none of
the scoped, known-no-org, gopkg.in or github.com forms — the claim predicts
the organization `vendor` (a segment starting with `v` followed by a
non-digit is not skipped under the claimed rule), but the code skips every
segment starting with `v` and extracts `foo`. -/
theorem C6_counterexample :
    extractPackageInfo "Bump example.org/vendor/foo from 1.0.0 to 2.0.0"
      = ("example.org/vendor/foo", "foo")
    ∧ fallbackOrgClaimed "example.org/vendor/foo" = "vendor"
    ∧ extractOrg "example.org/vendor/foo" ≠ fallbackOrgClaimed "example.org/vendor/foo"
    ∧ containsGo "example.org/vendor/foo" "/" = true
    ∧ startsWithGo "example.org/vendor/foo" "@" = false
    ∧ startsWithGo "example.org/vendor/foo" "golang.org/x/" = false
    ∧ startsWithGo "example.org/vendor/foo" "google.golang.org/" = false
    ∧ startsWithGo "example.org/vendor/foo" "gopkg.in/" = false
    ∧ startsWithGo "example.org/vendor/foo" "github.com/" = false := by
  refine ⟨?_, ?_, ?_, ?_, ?_, ?_, ?_, ?_, ?_⟩ <;> decide

theorem splitOnSlashChars_ne_nil (l : List Char) : splitOnSlashChars l ≠ [] := by
  induction l with
  | nil => simp [splitOnSlashChars]
  | cons c t ih =>
    unfold splitOnSlashChars
    by_cases hc : c = '/'
    · simp [hc]
    · simp only [hc, if_false]
      cases h : splitOnSlashChars t with
      | nil => exact absurd h ih
      | cons a r => simp

theorem splitOnSlash_ne_nil (s : String) : splitOnSlash s ≠ [] := by
  unfold splitOnSlash
  simp [splitOnSlashChars_ne_nil]

/-- C6 (amended): for a non-empty package name containing `/` that is not
scoped, not in a known no-org namespace, not a gopkg.in path, and not a
github.com path with at least three segments, the extracted organization is
the first path segment after the first that contains no `.` and does not
start with `v` (whatever follows the `v`). -/
theorem C6_fallback_org (pkg : String)
    (h0 : pkg ≠ "") (h1 : containsGo pkg "/" = true)
    (h2 : startsWithGo pkg "@" = false)
    (h3 : startsWithGo pkg "golang.org/x/" = false)
    (h4 : startsWithGo pkg "google.golang.org/" = false)
    (h5 : startsWithGo pkg "gopkg.in/" = false)
    (h6 : ¬(3 ≤ (splitOnSlash pkg).length ∧ startsWithGo pkg "github.com/" = true)) :
    extractOrg pkg =
      ((splitOnSlash pkg).tail.find?
        (fun part => !containsGo part "." && !startsWithGo part "v")).getD "" := by
  unfold extractOrg
  have hne : (pkg != "") = true := bne_iff_ne.mpr h0
  have hA : (startsWithGo pkg "@" && containsGo pkg "/") = false := by simp [h2]
  have hG : (startsWithGo pkg "golang.org/x/" || startsWithGo pkg "google.golang.org/") = false := by
    simp [h3, h4]
  have hGH : (decide ((splitOnSlash pkg).length ≥ 3) && startsWithGo pkg "github.com/") = false := by
    by_cases hgh : startsWithGo pkg "github.com/" = true
    · have hlen : ¬(3 ≤ (splitOnSlash pkg).length) := fun hl => h6 ⟨hl, hgh⟩
      simp [hlen]
    · simp [Bool.eq_false_iff.mpr hgh]
  simp only [hne, if_true, hA, Bool.false_eq_true, if_false, h1, hG, h5, hGH]
  unfold fallbackScan
  cases hp : splitOnSlash pkg with
  | nil => exact absurd hp (splitOnSlash_ne_nil pkg)
  | cons a rest =>
    cases hf : rest.find? (fun part => !containsGo part "." && !startsWithGo part "v") <;>
      simp [hf, h2]

theorem C6_witness :
    extractOrg "example.org/vendor/foo" =
      ((splitOnSlash "example.org/vendor/foo").tail.find?
        (fun part => !containsGo part "." && !startsWithGo part "v")).getD "" :=
  C6_fallback_org "example.org/vendor/foo" (by decide) (by decide) (by decide)
    (by decide) (by decide) (by decide) (by decide)

/-! ## C8: the namespace-separator invariant -/

theorem extractOrg_ne_empty {pkg : String} (h : extractOrg pkg ≠ "") :
    pkg ≠ "" ∧ containsGo pkg "/" = true := by
  constructor
  · intro h0
    apply h
    rw [h0]
    rfl
  · by_contra hc
    apply h
    have hc' : containsGo pkg "/" = false := by
      cases hcc : containsGo pkg "/"
      · rfl
      · exact absurd hcc hc
    unfold extractOrg
    have hA : (startsWithGo pkg "@" && containsGo pkg "/") = false := by simp [hc']
    simp [hA, hc']

/-- C8: for every title, a non-empty extracted organization implies a
non-empty extracted package name that contains the namespace separator
`/`. -/
theorem C8_org_implies_namespaced (title : String)
    (h : (extractPackageInfo title).2 ≠ "") :
    (extractPackageInfo title).1 ≠ ""
      ∧ containsGo (extractPackageInfo title).1 "/" = true :=
  extractOrg_ne_empty h

theorem C8_witness :
    (extractPackageInfo "Bump github.com/a/b from 1.0 to 2.0").1 ≠ ""
      ∧ containsGo (extractPackageInfo "Bump github.com/a/b from 1.0 to 2.0").1 "/" = true :=
  C8_org_implies_namespaced "Bump github.com/a/b from 1.0 to 2.0" (by decide)

/-! ## C9: precedence of the ignore list -/

/-- C9: no request returned by `GetDependencyUpdates` carries a PR number
from the ignore list, whatever the author, deny-list outcome and CI state
of the records. -/
theorem C9_ignored_excluded (q : DependencyUpdateQuery) (skipFailing : Bool)
    (pulls : List PullRecord) (reqs : List DependencyUpdateRequest)
    (h : getDependencyUpdates q skipFailing pulls = .ok reqs) :
    ∀ r ∈ reqs, q.IgnoredPRs.contains r.PullRequestNumber = false := by
  induction pulls generalizing reqs with
  | nil =>
    simp only [getDependencyUpdates, Except.ok.injEq] at h
    subst h
    intro r hr
    exact absurd hr (List.not_mem_nil r)
  | cons p rest ih =>
    rw [getDependencyUpdates] at h
    by_cases hign : q.IgnoredPRs.contains p.number = true
    · rw [if_pos hign] at h
      exact ih reqs h
    · have hign' : q.IgnoredPRs.contains p.number = false := by
        cases hc : q.IgnoredPRs.contains p.number
        · rfl
        · exact absurd hc hign
      rw [if_neg hign] at h
      cases skipFailing with
      | true =>
        rw [if_pos rfl] at h
        by_cases huser : (p.userID == dependabotUserID) = true
        · rw [if_pos huser] at h
          by_cases hden : isDenied (extractPackageInfo p.title).1 (extractPackageInfo p.title).2
              q.DeniedPackages q.DeniedOrgs = true
          · rw [if_pos hden] at h
            exact ih reqs h
          · rw [if_neg hden] at h
            cases hcs : p.combinedStatus with
            | error e =>
              rw [hcs] at h
              exact absurd h (by simp)
            | ok st =>
              simp only [hcs] at h
              by_cases hst : (st == "success") = true
              · rw [if_pos hst] at h
                cases hrest : getDependencyUpdates q true rest with
                | error e =>
                  rw [hrest] at h
                  exact absurd h (by simp [Except.map])
                | ok l =>
                  rw [hrest] at h
                  simp only [Except.map, Except.ok.injEq] at h
                  subst h
                  intro r hr
                  rcases List.mem_cons.mp hr with hr | hr
                  · rw [hr]
                    exact hign'
                  · exact ih l hrest r hr
              · rw [if_neg hst] at h
                exact ih reqs h
        · rw [if_neg huser] at h
          exact ih reqs h
      | false =>
        rw [if_neg (by simp)] at h
        by_cases huser : (p.userID == dependabotUserID) = true
        · rw [if_pos huser] at h
          by_cases hden : isDenied (extractPackageInfo p.title).1 (extractPackageInfo p.title).2
              q.DeniedPackages q.DeniedOrgs = true
          · rw [if_pos hden] at h
            exact ih reqs h
          · rw [if_neg hden] at h
            cases hrest : getDependencyUpdates q false rest with
            | error e =>
              rw [hrest] at h
              exact absurd h (by simp [Except.map])
            | ok l =>
              rw [hrest] at h
              simp only [Except.map, Except.ok.injEq] at h
              subst h
              intro r hr
              rcases List.mem_cons.mp hr with hr | hr
              · rw [hr]
                exact hign'
              · exact ih l hrest r hr
        · rw [if_neg huser] at h
          exact ih reqs h

theorem C9_witness :
    (DependencyUpdateQuery.mk "o" "r" [5] [] []).IgnoredPRs.contains
      (DependencyUpdateRequest.mk "o" "r" 7 "n" "Bump foo from 1.0 to 2.0" "foo").PullRequestNumber
      = false :=
  C9_ignored_excluded ⟨"o", "r", [5], [], []⟩ false
    [⟨7, "n", "Bump foo from 1.0 to 2.0", 49699333, .ok "success"⟩]
    [⟨"o", "r", 7, "n", "Bump foo from 1.0 to 2.0", "foo"⟩]
    rfl
    ⟨"o", "r", 7, "n", "Bump foo from 1.0 to 2.0", "foo"⟩
    (by simp)

/-! ## C10: empty identities never match -/

theorem equalFold_empty_left {d : String} (hd : d ≠ "") : equalFold "" d = false := by
  unfold equalFold
  rw [show toLowerGo "" = "" from rfl]
  exact beq_eq_false_iff_ne.mpr (fun hh => hd (toLowerGo_eq_empty.mp hh.symm))

theorem packageEntryDenies_empty {d : String} (hd : d ≠ "") :
    packageEntryDenies "" d = false := by
  unfold packageEntryDenies
  have hlow : toLowerGo d ≠ "" := fun hh => hd (toLowerGo_eq_empty.mp hh)
  by_cases hw : containsGo d "*" = true
  · have ca : containsGo (toLowerGo "") "alpha" = false := by decide
    have cb : containsGo (toLowerGo "") "beta" = false := by decide
    have cc : containsGo (toLowerGo "") "rc" = false := by decide
    have cv : endsWithGo (toLowerGo "") "/v0" = false := by decide
    simp [hw, ca, cb, cc, cv]
  · have he : equalFold "" d = false := equalFold_empty_left hd
    have hcont : containsGo (toLowerGo "") (toLowerGo d) = false := by
      rw [show toLowerGo "" = "" from rfl]
      show containsChars (toLowerGo d).data [] = false
      unfold containsChars
      cases hdd : (toLowerGo d).data with
      | nil => exact absurd (strData_eq_nil.mp hdd) hlow
      | cons a t => rfl
    have hbe : (toLowerGo "" == toLowerGo d) = false := he
    have hidx : indexGo (toLowerGo "") "@" = -1 := rfl
    by_cases hat : containsGo d "@" = true
    · simp [hw, he, hat, hcont]
    · simp [hw, he, hat, hbe, hidx]

theorem removeDuplicatesAux_ne_empty :
    ∀ (l seen : List String), ∀ s ∈ removeDuplicatesAux seen l, s ≠ "" := by
  intro l
  induction l with
  | nil =>
    intro seen s hs
    exact absurd hs (List.not_mem_nil s)
  | cons item rest ih =>
    intro seen s hs
    unfold removeDuplicatesAux at hs
    by_cases hk : (toLowerGo (trimSpaceGo item) != ""
        && !seen.contains (toLowerGo (trimSpaceGo item))) = true
    · rw [if_pos hk] at hs
      rcases List.mem_cons.mp hs with hs | hs
      · subst hs
        intro hempty
        subst hempty
        rw [show toLowerGo (trimSpaceGo "") = "" from rfl] at hk
        simp at hk
      · exact ih _ s hs
    · rw [if_neg hk] at hs
      exact ih _ s hs

/-- C10: deny lists whose entries are all non-empty — as guaranteed for
lists produced by `removeDuplicates` — never deny the empty package name
with the empty organization, so an unparseable title matches no deny
rule. -/
theorem C10_empty_identity_never_denied :
    (∀ l : List String, ∀ s ∈ removeDuplicates l, s ≠ "")
    ∧ (∀ deniedPackages deniedOrgs : List String,
        (∀ d ∈ deniedPackages, d ≠ "") → (∀ d ∈ deniedOrgs, d ≠ "") →
        isDenied "" "" deniedPackages deniedOrgs = false) := by
  constructor
  · intro l s hs
    exact removeDuplicatesAux_ne_empty l [] s hs
  · intro dps dos hp ho
    unfold isDenied
    rw [Bool.or_eq_false_iff]
    constructor
    · rw [List.any_eq_false]
      intro d hd
      simp [packageEntryDenies_empty (hp d hd)]
    · rw [List.any_eq_false]
      intro d hd
      simp [equalFold_empty_left (ho d hd)]

theorem C10_witness : isDenied "" "" ["github.com/pkg/errors"] ["datadog"] = false :=
  C10_empty_identity_never_denied.2 ["github.com/pkg/errors"] ["datadog"]
    (by decide) (by decide)

end Bouncer
